import Mathlib

/-!
Verification development for the agent-browser OpenAPI server
(search / browse / screenshot facade).

JavaScript strings are modelled as `List Char`; machine integers do not
occur (all counts are small non-negative integers, modelled as `Nat`).
Asynchronous command execution against the external browser tool is
modelled by an oracle `Env : Nat -> Except Err (List Char)` giving the
outcome of the n-th issued command, with the issued command argument
vectors recorded in an explicit trace.  Regular-expression matching in
the source uses only a handful of fixed patterns; each is modelled by a
direct left-to-right first-match scanner with the same semantics on the
character model (JavaScript whitespace classes are modelled by their
ASCII members).
-/

/-- Convert a Lean string literal to the `List Char` string model. -/
def cs (s : String) : List Char := s.data

/-- ASCII members of the JavaScript regex class backslash-s, by code
point: space, tab, line feed, carriage return, vertical tab, form feed. -/
def isJsWs (c : Char) : Bool :=
  c.toNat == 32 || c.toNat == 9 || c.toNat == 10 ||
  c.toNat == 13 || c.toNat == 11 || c.toNat == 12

/-- JavaScript `String.prototype.toLowerCase`, restricted to its ASCII action. -/
def asciiLower (c : Char) : Char :=
  if 65 ≤ c.toNat && c.toNat ≤ 90 then Char.ofNat (c.toNat + 32) else c

/-- Lower-case a whole modelled string. -/
def lowerStr (s : List Char) : List Char := s.map asciiLower

/-- JavaScript `String.prototype.trim` (both ends, whitespace model above). -/
def trimStr (s : List Char) : List Char :=
  ((s.dropWhile isJsWs).reverse.dropWhile isJsWs).reverse

/-- `leadsWith pat s` holds when `pat` is a prefix of `s` (JS `startsWith`). -/
def leadsWith : List Char → List Char → Bool
  | [], _ => true
  | _ :: _, [] => false
  | p :: ps, c :: rest => p == c && leadsWith ps rest

/-- JavaScript `String.prototype.includes`: `pat` occurs somewhere in `s`. -/
def containsSub : List Char → List Char → Bool
  | [], pat => leadsWith pat []
  | c :: rest, pat =>
    if leadsWith pat (c :: rest) then true else containsSub rest pat

/-- First index at which `pat` occurs in `s` (JS `indexOf`), if any. -/
def indexOfSub : List Char → List Char → Option Nat
  | [], pat => if leadsWith pat [] then some 0 else none
  | c :: rest, pat =>
    if leadsWith pat (c :: rest) then some 0
    else (indexOfSub rest pat).map (· + 1)

/-- JavaScript `split(backslash-n)`: cut a string at every newline. -/
def splitNl : List Char → List (List Char)
  | [] => [[]]
  | c :: rest =>
    let r := splitNl rest
    if c == '\n' then [] :: r
    else
      match r with
      | t :: ts => (c :: t) :: ts
      | [] => [[c]]

/-- Maximal non-empty runs of non-whitespace characters.  JavaScript
`split` on a whitespace-run regex additionally yields empty tokens at a
leading or trailing separator; every consumer in the source immediately
discards tokens of length below three, so the two renderings agree after
that filter. -/
def wsTokensGo (cur : List Char) : List Char → List (List Char)
  | [] => if cur.isEmpty then [] else [cur.reverse]
  | c :: rest =>
    if isJsWs c then
      if cur.isEmpty then wsTokensGo [] rest
      else cur.reverse :: wsTokensGo [] rest
    else wsTokensGo (c :: cur) rest

/-- See `wsTokensGo`: the runs of a whole string. -/
def wsTokens (s : List Char) : List (List Char) := wsTokensGo [] s

/-- Try the pattern `[ref=` token `]` (token a non-empty run without a
closing bracket) at the start of `s`; return the captured token. -/
def refMatchAt (s : List Char) : Option (List Char) :=
  if leadsWith (cs "[ref=") s then
    let rest := s.drop 5
    let run := rest.takeWhile (fun c => !(c == ']'))
    if run.isEmpty then none
    else if leadsWith (cs "]") (rest.drop run.length) then some run else none
  else none

/-- Left-to-right first-match scan of a positional matcher over `s`. -/
def scanFirst (f : List Char → Option α) : List Char → Option α
  | [] => f []
  | c :: rest =>
    match f (c :: rest) with
    | some a => some a
    | none => scanFirst f rest

/-- First match of the source regex for a bracketed ref marker. -/
def refMatch (line : List Char) : Option (List Char) := scanFirst refMatchAt line

/-- Try the pattern quote, non-empty run without quotes, quote at the
start of `s`; capture the run.  Models the double-quoted-text regex. -/
def quoteMatchAt (s : List Char) : Option (List Char) :=
  match s with
  | c :: rest =>
    if c == '"' then
      let run := rest.takeWhile (fun d => !(d == '"'))
      if run.isEmpty then none
      else if leadsWith (cs "\"") (rest.drop run.length) then some run else none
    else none
  | [] => none

/-- First double-quoted substring of a line. -/
def quoteMatch (line : List Char) : Option (List Char) := scanFirst quoteMatchAt line

/-- Try the absolute-URL regex (http or https scheme, then a non-empty
run of non-whitespace) at the start of `s`; return the whole match. -/
def urlMatchAt (s : List Char) : Option (List Char) :=
  let try1 : Option (List Char) :=
    if leadsWith (cs "https://") s then some (cs "https://") else
    if leadsWith (cs "http://") s then some (cs "http://") else none
  match try1 with
  | none => none
  | some scheme =>
    let rest := s.drop scheme.length
    let run := rest.takeWhile (fun c => !(isJsWs c))
    if run.isEmpty then none else some (scheme ++ run)

/-- First absolute http or https URL occurring in a line. -/
def urlMatch (line : List Char) : Option (List Char) := scanFirst urlMatchAt line

/-! ## Configuration (src/src/config/index.js) -/

/-- config.search.minKeywordLength. -/
def minKeywordLength : Nat := 2

/-- config.search.defaultMaxResults. -/
def defaultMaxResults : Nat := 5

/-- config.retry.maxAttempts. -/
def retryMaxAttempts : Nat := 3

/-- config.retry.baseDelay (milliseconds). -/
def retryBaseDelay : Nat := 1000

/-- Math.ceil of n times config.search.relevanceThreshold, with the
configured fraction 0.5; exact on the IEEE doubles the source uses for
every list length that can occur. -/
def ceilHalf (n : Nat) : Nat := (n + 1) / 2

/-! ## Snapshot parser (src/src/utils/parser.js, parseSnapshotRefs) -/

/-- Candidate link extracted from an accessibility snapshot line. -/
structure Link where
  ref : List Char
  text : List Char
  url : List Char
  deriving DecidableEq

/-- URL filter applied by parseSnapshotRefs before admitting a candidate:
truthy, not an excluded search-engine or media URL, and longer than 10. -/
def urlPass (url : List Char) : Bool :=
  !url.isEmpty &&
  !containsSub url (cs "google.com/search") &&
  !containsSub url (cs "accounts.google") &&
  !containsSub url (cs "support.google") &&
  !containsSub url (cs "policies.google") &&
  !containsSub url (cs "webcache.googleusercontent.com") &&
  !containsSub url (cs "youtube.com/watch") &&
  !leadsWith (cs "https://www.google.") url &&
  decide (10 < url.length)

/-- Per-line body of the parseSnapshotRefs loop, with the accumulated
candidate list and the early-exit cap of `maxResults * 2`. -/
def psrGo (maxResults : Nat) : List (List Char) → List Link → List Link
  | [], links => links
  | line :: rest, links =>
    if containsSub line (cs "link") && containsSub line (cs "[ref=") then
      match refMatch line with
      | none => psrGo maxResults rest links
      | some ref =>
        let text := (quoteMatch line).getD []
        let url := (urlMatch line).getD []
        if urlPass url && !(links.any (fun l => decide (l.url = url))) then
          let links2 := links ++ [⟨ref, text, url⟩]
          if maxResults * 2 ≤ links2.length then links2
          else psrGo maxResults rest links2
        else psrGo maxResults rest links
    else psrGo maxResults rest links

/-- parseSnapshotRefs from src/src/utils/parser.js: split the snapshot
into lines and extract deduplicated candidate links in line order. -/
def parseSnapshotRefs (snapshot : List Char) (maxResults : Nat) : List Link :=
  psrGo maxResults (splitNl snapshot) []

/-! ## HTML fallback extractor (src/src/utils/parser.js, extractLinksFromHtml) -/

/-- Link shape produced by the HTML extraction fallback. -/
structure HtmlLink where
  url : List Char
  title : List Char
  deriving DecidableEq

/-- Case-insensitive prefix test (for the `i` flag on the href regex). -/
def leadsWithCI (pat s : List Char) : Bool :=
  leadsWith (pat.map asciiLower) (s.map asciiLower)

/-- Try the href-attribute regex at the start of `s`: `href=`, an opening
single or double quote, a non-empty run without quotes, a closing single
or double quote.  Returns the whole matched text and the captured URL. -/
def hrefMatchAt (s : List Char) : Option (List Char × List Char) :=
  if leadsWithCI (cs "href=") s then
    match s.drop 5 with
    | q :: rest =>
      if q == '"' || q == Char.ofNat 39 then
        let run := rest.takeWhile (fun c => !(c == '"' || c == Char.ofNat 39))
        if run.isEmpty then none
        else
          match rest.drop run.length with
          | q2 :: _ =>
            if q2 == '"' || q2 == Char.ofNat 39 then
              some (s.take 5 ++ q :: run ++ [q2], run)
            else none
          | [] => none
      else none
    | [] => none
  else none

/-- Global scan of the href regex: successive non-overlapping matches in
left-to-right order, resuming after each match (the `g` flag).  The fuel
argument bounds the scan by the string length. -/
def hrefScanGo : Nat → List Char → List (List Char × List Char)
  | 0, _ => []
  | _, [] => []
  | fuel + 1, c :: rest =>
    match hrefMatchAt (c :: rest) with
    | some (full, url) => (full, url) :: hrefScanGo fuel ((c :: rest).drop full.length)
    | none => hrefScanGo fuel rest

/-- All href matches of an HTML string, in order. -/
def hrefScan (html : List Char) : List (List Char × List Char) :=
  hrefScanGo html.length html

/-- URL filter of extractLinksFromHtml: must start with `http` and avoid
the excluded search-engine domains. -/
def htmlUrlPass (url : List Char) : Bool :=
  leadsWith (cs "http") url &&
  !containsSub url (cs "google.com") &&
  !containsSub url (cs "accounts.google") &&
  !containsSub url (cs "support.google") &&
  !containsSub url (cs "policies.google") &&
  !containsSub url (cs "webcache.googleusercontent.com")

/-- Try the title pattern (a `>` sign, a non-empty run without `<`, then
a `<` sign) at the start of `s`; capture the run. -/
def gtTextAt (s : List Char) : Option (List Char) :=
  match s with
  | c :: rest =>
    if c == '>' then
      let run := rest.takeWhile (fun d => !(d == '<'))
      if run.isEmpty then none
      else
        match rest.drop run.length with
        | d :: _ => if d == '<' then some run else none
        | [] => none
    else none
  | [] => none

/-- Display title derived for an href match: the first text content
between a `>` and a `<` after the first occurrence of the matched text,
or the URL itself. -/
def titleFor (html full url : List Char) : List Char :=
  let afterUrl := html.drop ((indexOfSub html full).getD 0)
  match scanFirst gtTextAt afterUrl with
  | some t => trimStr t
  | none => url

/-- Loop body of extractLinksFromHtml over the successive href matches,
with dedup and the `maxResults * 2` early-exit cap. -/
def elfGo (html : List Char) (maxResults : Nat) :
    List (List Char × List Char) → List HtmlLink → List HtmlLink
  | [], links => links
  | (full, url) :: rest, links =>
    if htmlUrlPass url && !(links.any (fun l => decide (l.url = url))) then
      let links2 := links ++ [⟨url, titleFor html full url⟩]
      if maxResults * 2 ≤ links2.length then links2
      else elfGo html maxResults rest links2
    else elfGo html maxResults rest links

/-- extractLinksFromHtml from src/src/utils/parser.js. -/
def extractLinksFromHtml (html : List Char) (maxResults : Nat) : List HtmlLink :=
  elfGo html maxResults (hrefScan html) []

/-! ## Relevance scoring (src/src/utils/parser.js, checkRelevance) -/

/-- Keyword list of a query: lower-case, split on whitespace, keep tokens
longer than config.search.minKeywordLength. -/
def keywordsOf (query : List Char) : List (List Char) :=
  (wsTokens (lowerStr query)).filter (fun k => minKeywordLength < k.length)

/-- checkRelevance from src/src/utils/parser.js: count keywords occurring
in the lower-cased content and compare against the clamped threshold. -/
def checkRelevance (query content : List Char) : Bool :=
  let lowerContent := lowerStr content
  let keywords := keywordsOf query
  let matchCount :=
    keywords.foldl (fun n k => if containsSub lowerContent k then n + 1 else n) 0
  let relevanceThreshold := max 1 (ceilHalf keywords.length)
  relevanceThreshold ≤ matchCount

/-! ## Retry with exponential backoff (src/unnamed/part_005, withRetry) -/

/-- Loop of withRetry.  The operation is modelled as a map from the
zero-based attempt index to that attempt's outcome; `fuel` is the number
of attempts still allowed (so the loop guard `i < maxRetries` of the
source is `0 < fuel`, and `fuel = 1` is the source's final-attempt test
`i = maxRetries - 1`); `i` is the current attempt index.  The result
lists the back-off sleeps performed, in order, and counts the
invocations made; its first component is `none` exactly in the
zero-attempt case, where the source loop body never runs and the
promise resolves with undefined. -/
def wrGo (fn : Nat → Except ε α) (baseDelay : Nat) :
    Nat → Nat → Option (Except ε α) × List Nat × Nat
  | 0, i => (none, [], i)
  | 1, i =>
    match fn i with
    | .ok a => (some (.ok a), [], i + 1)
    | .error e => (some (.error e), [], i + 1)
  | fuel + 2, i =>
    match fn i with
    | .ok a => (some (.ok a), [], i + 1)
    | .error _ =>
      let r := wrGo fn baseDelay (fuel + 1) (i + 1)
      (r.1, baseDelay * 2 ^ i :: r.2.1, r.2.2)

/-- withRetry from src/unnamed/part_005: try `fn` up to `maxRetries`
times, sleeping `baseDelay * 2 ^ i` after the i-th failed attempt except
the last, whose error propagates. -/
def withRetry (fn : Nat → Except ε α) (maxRetries baseDelay : Nat) :
    Option (Except ε α) × List Nat × Nat :=
  wrGo fn baseDelay maxRetries 0

/-! ## Command execution model (src/src/core/AgentExecutor.js) -/

/-- Error values carried by rejected promises (the message text). -/
abbrev Err := List Char

/-- Argument vector of one external agent-browser invocation. -/
abbrev Cmd := List (List Char)

/-- Oracle for the external tool: outcome of the n-th issued command. -/
abbrev Env := Nat → Except Err (List Char)

/-- Execution state: how many commands have been issued so far, and the
trace of their argument vectors. -/
structure ExecSt where
  k : Nat
  trace : List Cmd
  deriving DecidableEq

/-- runAgentCommand: issue the next command, recording it in the trace;
the command timeout has no observable effect beyond possible failure,
which the oracle already covers. -/
def runCmd (env : Env) (args : Cmd) (s : ExecSt) :
    Except Err (List Char) × ExecSt :=
  (env s.k, ⟨s.k + 1, s.trace ++ [args]⟩)

/-- Arguments of the open-URL command. -/
def openArgs (sid url : List Char) : Cmd := [cs "--session", sid, cs "open", url]

/-- Arguments of the network-idle wait command. -/
def waitArgs (sid : List Char) : Cmd :=
  [cs "--session", sid, cs "wait", cs "--load", cs "networkidle"]

/-- Arguments of the interactive snapshot command. -/
def snapshotIArgs (sid : List Char) : Cmd :=
  [cs "--session", sid, cs "snapshot", cs "-i"]

/-- Arguments of the compact snapshot command. -/
def snapshotCArgs (sid : List Char) : Cmd :=
  [cs "--session", sid, cs "snapshot", cs "-c"]

/-- Arguments of the full snapshot command. -/
def snapshotArgs (sid : List Char) : Cmd := [cs "--session", sid, cs "snapshot"]

/-- Arguments of the click-by-ref command. -/
def clickArgs (sid ref : List Char) : Cmd :=
  [cs "--session", sid, cs "click", cs "@" ++ ref]

/-- Arguments of the get-title command. -/
def getTitleArgs (sid : List Char) : Cmd := [cs "--session", sid, cs "get", cs "title"]

/-- Arguments of the get-body-text command. -/
def getTextBodyArgs (sid : List Char) : Cmd :=
  [cs "--session", sid, cs "get", cs "text", cs "body"]

/-- Arguments of the generic get command used by the browse service. -/
def getArgs (sid kind selector : List Char) : Cmd :=
  [cs "--session", sid, cs "get", kind, selector]

/-- Arguments of the screenshot-to-file command. -/
def screenshotArgs (sid tempFile : List Char) : Cmd :=
  [cs "--session", sid, cs "screenshot", tempFile]

/-- Arguments of the session-close command. -/
def closeArgs (sid : List Char) : Cmd := [cs "--session", sid, cs "close"]

/-- State-threaded rendering of withRetry for operations that issue
commands (sleeps have no observable effect in the command model).  The
zero-attempt case, which the source never exercises and would resolve
with undefined, is modelled as an error. -/
def withRetryM (fn : ExecSt → Except Err α × ExecSt) :
    Nat → ExecSt → Except Err α × ExecSt
  | 0, s => (.error (cs "no attempts"), s)
  | 1, s => fn s
  | n + 2, s =>
    match fn s with
    | (.ok a, s2) => (.ok a, s2)
    | (.error _, s2) => withRetryM fn (n + 1) s2

/-! ## URL building and validation -/

/-- UTF-8 bytes of a code point. -/
def utf8Bytes (n : Nat) : List Nat :=
  if n < 128 then [n]
  else if n < 2048 then [192 + n / 64, 128 + n % 64]
  else if n < 65536 then [224 + n / 4096, 128 + n / 64 % 64, 128 + n % 64]
  else [240 + n / 262144, 128 + n / 4096 % 64, 128 + n / 64 % 64, 128 + n % 64]

/-- Upper-case hexadecimal digit. -/
def hexDigitU (n : Nat) : Char := (cs "0123456789ABCDEF").getD n '0'

/-- Characters encodeURIComponent leaves unescaped. -/
def isUriUnreserved (c : Char) : Bool :=
  ('A' ≤ c && c ≤ 'Z') || ('a' ≤ c && c ≤ 'z') || ('0' ≤ c && c ≤ '9') ||
  c == '-' || c == '_' || c == '.' || c == '!' || c == '~' || c == '*' ||
  c == Char.ofNat 39 || c == '(' || c == ')'

/-- JavaScript encodeURIComponent: percent-encode every character
outside the unreserved set through its UTF-8 bytes. -/
def encodeURIComponent (s : List Char) : List Char :=
  s.flatMap fun c =>
    if isUriUnreserved c then [c]
    else (utf8Bytes c.toNat).flatMap fun b =>
      ['%', hexDigitU (b / 16), hexDigitU (b % 16)]

/-- validateUrl from src/src/utils/validation.js.  The WHATWG URL parse
plus protocol check is modelled as accepting exactly the strings with an
explicit http or https scheme prefix, which agrees with the source on
every URL the services construct or admit. -/
def validateUrl (url : List Char) : Except Err Bool :=
  if leadsWith (cs "http://") url || leadsWith (cs "https://") url then .ok true
  else .error (cs "Invalid URL")

/-- The Google search URL built for a query. -/
def searchUrlOf (query : List Char) : List Char :=
  cs "https://www.google.com/search?q=" ++ encodeURIComponent query

/-! ## Search orchestration (src/src/services/SearchService.js) -/

/-- One accepted search result. -/
structure SearchResult where
  title : List Char
  url : List Char
  snippet : List Char
  relevance : List Char
  contentLength : Nat
  deriving DecidableEq

/-- The object returned by a completed search. -/
structure SearchOutcome where
  query : List Char
  results : List SearchResult
  totalFound : Nat
  relevantCount : Nat
  summary : List Char
  deriving DecidableEq

/-- Decimal rendering of a count, as JavaScript template interpolation. -/
def natToChars (n : Nat) : List Char := (Nat.repr n).data

/-- Array.prototype.join with a newline separator. -/
def joinNl : List (List Char) → List Char
  | [] => []
  | [x] => x
  | x :: y :: rest => x ++ '\n' :: joinNl (y :: rest)

/-- The numbered four-line block (plus blank line) of one result inside
generateSummary. -/
def summaryBlock (i : Nat) (r : SearchResult) : List (List Char) :=
  [natToChars (i + 1) ++ cs ". " ++ r.title,
   cs "   URL: " ++ r.url,
   cs "   Relevance: " ++ r.relevance,
   cs "   Preview: " ++ r.snippet.take 150 ++ cs "...",
   []]

/-- generateSummary from src/src/services/SearchService.js. -/
def generateSummary (query : List Char) (results : List SearchResult) : List Char :=
  if results.isEmpty then
    cs "No relevant results found for query: \"" ++ query ++ cs "\""
  else
    joinNl ((cs "Search Summary for: \"" ++ query ++ cs "\"") ::
            (cs "Found " ++ natToChars results.length ++ cs " relevant result(s):\n") ::
            (results.enum.flatMap fun p => summaryBlock p.1 p.2))

/-- The outcome returned when no candidate links were found. -/
def emptySearchOutcome (query : List Char) : SearchOutcome :=
  ⟨query, [], 0, 0, generateSummary query []⟩

/-- JavaScript truthiness choice `a or-else b` on strings. -/
def jsOr (a b : List Char) : List Char := if a.isEmpty then b else a

/-- Outcome of visiting one candidate: the per-candidate try block ended
in a caught exception, a non-relevant page, or an accepted result. -/
inductive VisitRes where
  | errored
  | notRel
  | rel (r : SearchResult)

/-- Steps 4 to 7 of the search loop for one candidate: navigate by ref
click with direct-open fallback, wait for idle, read the title (with the
caught fallback to the candidate text or URL), read the body text, score
relevance, and build the result record. -/
def navigateStep (env : Env) (sid : List Char) (link : Link) (s : ExecSt) :
    Except Err (List Char) × ExecSt :=
  if link.ref.isEmpty then runCmd env (openArgs sid link.url) s
  else
    match runCmd env (clickArgs sid link.ref) s with
    | (.ok r, s1) => (.ok r, s1)
    | (.error _, s1) => runCmd env (openArgs sid link.url) s1

/-- Steps 5 to 7 continue in `visitOne` below. -/
def visitOne (env : Env) (sid query : List Char) (link : Link) (s : ExecSt) :
    VisitRes × ExecSt :=
  match navigateStep env sid link s with
  | (.error _, s1) => (.errored, s1)
  | (.ok _, s1) =>
    match runCmd env (waitArgs sid) s1 with
    | (.error _, s2) => (.errored, s2)
    | (.ok _, s2) =>
      let (titleRes, s3) := runCmd env (getTitleArgs sid) s2
      let title :=
        match titleRes with
        | .ok t => t
        | .error _ => jsOr link.text link.url
      match runCmd env (getTextBodyArgs sid) s3 with
      | (.error _, s4) => (.errored, s4)
      | (.ok content, s4) =>
        let snippet := (trimStr content).take 500
        if checkRelevance query content then
          (.rel ⟨jsOr (trimStr title) (jsOr link.text link.url), link.url,
                 snippet, cs "high", content.length⟩, s4)
        else (.notRel, s4)

/-- The visit loop over the candidate prefix, carrying the accumulated
results and a count of candidates examined.  A caught per-candidate
failure skips the stop check exactly as the source catch does. -/
def visitLoopGo (env : Env) (sid query : List Char) (maxResults : Nat) :
    List Link → List SearchResult → ExecSt → Nat →
    List SearchResult × ExecSt × Nat
  | [], results, s, visited => (results, s, visited)
  | link :: rest, results, s, visited =>
    match visitOne env sid query link s with
    | (.errored, s2) =>
      visitLoopGo env sid query maxResults rest results s2 (visited + 1)
    | (.notRel, s2) =>
      if maxResults ≤ results.length then (results, s2, visited + 1)
      else visitLoopGo env sid query maxResults rest results s2 (visited + 1)
    | (.rel r, s2) =>
      let results2 := results ++ [r]
      if maxResults ≤ results2.length then (results2, s2, visited + 1)
      else visitLoopGo env sid query maxResults rest results2 s2 (visited + 1)

/-- Steps 4 to 8: loop over at most `min(links.length, maxResults * 2)`
candidates. -/
def visitLoop (env : Env) (sid query : List Char) (maxResults : Nat)
    (links : List Link) (s : ExecSt) : List SearchResult × ExecSt × Nat :=
  visitLoopGo env sid query maxResults (links.take (maxResults * 2)) [] s 0

/-- Steps after link extraction: the early return with an empty outcome
when no candidates were found, else the visit loop and the final
outcome record. -/
def searchAfterLinks (env : Env) (sid query : List Char) (maxResults : Nat)
    (links : List Link) (s : ExecSt) : Except Err SearchOutcome × ExecSt :=
  if links.isEmpty then (.ok (emptySearchOutcome query), s)
  else
    let (results, s2, _) := visitLoop env sid query maxResults links s
    (.ok ⟨query, results, links.length, results.length,
          generateSummary query results⟩, s2)

/-- Step 3 of search: the snapshot-extraction try block.  An interactive
snapshot is parsed first; while the candidate list stays empty a compact
and then a full snapshot are tried.  A command failure is caught and
leaves the links bound so far (always the empty list). -/
def extractLinksPhase (env : Env) (sid : List Char) (maxResults : Nat)
    (s : ExecSt) : List Link × ExecSt :=
  match runCmd env (snapshotIArgs sid) s with
  | (.error _, s1) => ([], s1)
  | (.ok snap, s1) =>
    let links1 := parseSnapshotRefs snap maxResults
    if links1.isEmpty then
      match runCmd env (snapshotCArgs sid) s1 with
      | (.error _, s2) => (links1, s2)
      | (.ok snap2, s2) =>
        let links2 := parseSnapshotRefs snap2 maxResults
        if links2.isEmpty then
          match runCmd env (snapshotArgs sid) s2 with
          | (.error _, s3) => (links2, s3)
          | (.ok snap3, s3) => (parseSnapshotRefs snap3 maxResults, s3)
        else (links2, s2)
    else (links1, s1)

/-- The try block of search: validate the query URL, open it under the
two-attempt retry policy, wait for network idle (unprotected), extract
candidate links, and run the visit loop. -/
def searchBody (env : Env) (sid query : List Char) (maxResults : Nat)
    (s0 : ExecSt) : Except Err SearchOutcome × ExecSt :=
  match validateUrl (searchUrlOf query) with
  | .error e => (.error e, s0)
  | .ok _ =>
    match withRetryM (fun s => runCmd env (openArgs sid (searchUrlOf query)) s) 2 s0 with
    | (.error e, s1) => (.error e, s1)
    | (.ok _, s1) =>
      match runCmd env (waitArgs sid) s1 with
      | (.error e, s2) => (.error e, s2)
      | (.ok _, s2) =>
        let (links, s3) := extractLinksPhase env sid maxResults s2
        searchAfterLinks env sid query maxResults links s3

/-- search from src/src/services/SearchService.js: the body inside the
try, then the finally block that always issues the session-close command
and swallows its failure. -/
def search (env : Env) (sid query : List Char) (maxResults : Nat)
    (s0 : ExecSt) : Except Err SearchOutcome × ExecSt :=
  let (r, s1) := searchBody env sid query maxResults s0
  let (_, s2) := runCmd env (closeArgs sid) s1
  (r, s2)

/-! ## Browse service (src/src/services/BrowseService.js) -/

/-- The object returned by browse: the URL and the trimmed content keyed
by the extraction kind. -/
structure BrowseOutcome where
  url : List Char
  extractKind : List Char
  content : List Char
  deriving DecidableEq

/-- The retried body of browse: open, wait for idle, get text or html at
the selector. -/
def browseBody (env : Env) (sid url selector extractKind : List Char)
    (s0 : ExecSt) : Except Err (List Char) × ExecSt :=
  withRetryM (fun s =>
    match runCmd env (openArgs sid url) s with
    | (.error e, s1) => (.error e, s1)
    | (.ok _, s1) =>
      match runCmd env (waitArgs sid) s1 with
      | (.error e, s2) => (.error e, s2)
      | (.ok _, s2) =>
        runCmd env
          (getArgs sid (if extractKind = cs "html" then cs "html" else cs "text")
            selector) s2) 2 s0

/-- browse from src/src/services/BrowseService.js: retried body, result
record, and the finally block closing the session with caught failure. -/
def browse (env : Env) (sid url selector extractKind : List Char)
    (s0 : ExecSt) : Except Err BrowseOutcome × ExecSt :=
  let (r, s1) := browseBody env sid url selector extractKind s0
  let out := r.map fun content => BrowseOutcome.mk url extractKind (trimStr content)
  let (_, s2) := runCmd env (closeArgs sid) s1
  (out, s2)

/-! ## Screenshot service (src/src/services/ScreenshotService.js) -/

/-- The object returned by takeScreenshot. -/
structure ScreenshotOutcome where
  url : List Char
  screenshot : List Char
  deriving DecidableEq

/-- Base64 alphabet lookup. -/
def b64Char (n : Nat) : Char :=
  (cs "ABCDEFGHIJKLMNOPQRSTUVWXYZabcdefghijklmnopqrstuvwxyz0123456789+/").getD n '='

/-- Standard base64 rendering of a byte list (Buffer.toString base64). -/
def base64Encode : List Nat → List Char
  | b1 :: b2 :: b3 :: rest =>
    b64Char (b1 / 4) :: b64Char (b1 % 4 * 16 + b2 / 16) ::
    b64Char (b2 % 16 * 4 + b3 / 64) :: b64Char (b3 % 64) :: base64Encode rest
  | [b1, b2] =>
    [b64Char (b1 / 4), b64Char (b1 % 4 * 16 + b2 / 16), b64Char (b2 % 16 * 4), '=']
  | [b1] => [b64Char (b1 / 4), b64Char (b1 % 4 * 16), '=', '=']
  | [] => []

/-- takeScreenshot from src/src/services/ScreenshotService.js: retried
open, wait, screenshot-to-temp-file; then the synchronous file read
(whose failure propagates), the unlink whose failure is caught and
logged, and the finally block closing the session.  File-system effects
are modelled by the `fsRead` and `fsUnlink` oracles. -/
def takeScreenshot (env : Env) (fsRead : Except Err (List Nat))
    (fsUnlink : Except Err Unit) (sid url : List Char) (s0 : ExecSt) :
    Except Err ScreenshotOutcome × ExecSt :=
  let tempFile := cs "/tmp/screenshot-" ++ sid ++ cs ".png"
  let (r, s1) := withRetryM (fun s =>
    match runCmd env (openArgs sid url) s with
    | (.error e, sA) => (.error e, sA)
    | (.ok _, sA) =>
      match runCmd env (waitArgs sid) sA with
      | (.error e, sB) => (.error e, sB)
      | (.ok _, sB) => runCmd env (screenshotArgs sid tempFile) sB) 2 s0
  let body : Except Err ScreenshotOutcome :=
    match r with
    | .error e => .error e
    | .ok _ =>
      match fsRead, fsUnlink with
      | .error e, _ => .error e
      | .ok bytes, _ => .ok ⟨url, base64Encode bytes⟩
  let (_, s2) := runCmd env (closeArgs sid) s1
  (body, s2)

/-! ## Request queue (src/unnamed/part_000, RequestQueue) -/

/-- Observable events of the queue: a task is enqueued, starts running,
or finishes (resolving or rejecting its promise). -/
inductive QEvent where
  | enq (i : Nat)
  | start (i : Nat)
  | finish (i : Nat)
  deriving DecidableEq

/-- Queue state: pending tasks in arrival order, the task currently in
the single processing slot, and the event log so far. -/
structure QState where
  queue : List Nat
  processing : Option Nat
  log : List QEvent
  deriving DecidableEq

/-- The process method: when idle and work is pending, shift the front
task and start it; otherwise return immediately. -/
def processStep (s : QState) : QState :=
  match s.processing, s.queue with
  | none, i :: rest => ⟨rest, some i, s.log ++ [.start i]⟩
  | _, _ => s

/-- External stimuli in the cooperative event-loop model: a caller
enqueues task `i`, or the running task completes (its promise settles,
the finally clears the flag and process is called again). -/
inductive QAction where
  | enq (i : Nat)
  | complete
  deriving DecidableEq

/-- One event-loop step of the queue. -/
def qStep (s : QState) : QAction → QState
  | .enq i => processStep ⟨s.queue ++ [i], s.processing, s.log ++ [.enq i]⟩
  | .complete =>
    match s.processing with
    | some i => processStep ⟨s.queue, none, s.log ++ [.finish i]⟩
    | none => s

/-- Initial queue state. -/
def qInit : QState := ⟨[], none, []⟩

/-- Run the queue over a stimulus sequence. -/
def qRun (acts : List QAction) : QState := acts.foldl qStep qInit

/-- Arrival order recorded in a log. -/
def enqIds (log : List QEvent) : List Nat :=
  log.filterMap fun e => match e with | .enq i => some i | _ => none

/-- Start order recorded in a log. -/
def startIds (log : List QEvent) : List Nat :=
  log.filterMap fun e => match e with | .start i => some i | _ => none

/-- Completion order recorded in a log. -/
def finishIds (log : List QEvent) : List Nat :=
  log.filterMap fun e => match e with | .finish i => some i | _ => none

/-! ## Claim-side definitions and concrete inputs used by witnesses -/

/-- The relevance procedure exactly as the specification words it:
lower-case both strings, split the query on whitespace, discard tokens
of length at most the configured minimum, count the remaining tokens
occurring as substrings of the lower-cased content, and accept iff that
count reaches the clamped threshold. -/
def checkRelevanceClaim (query content : List Char) : Bool :=
  let keywords := (wsTokens (lowerStr query)).filter
    (fun k => minKeywordLength < k.length)
  let matched := keywords.countP (fun k => containsSub (lowerStr content) k)
  max 1 (ceilHalf keywords.length) ≤ matched

/-- The candidate a well-formed snapshot line yields: captured ref,
first quoted text, first URL. -/
def candOf (line : List Char) : Link :=
  ⟨(refMatch line).getD [], (quoteMatch line).getD [], (urlMatch line).getD []⟩

/-- The URL a line yields (empty when no URL occurs). -/
def lineUrl (line : List Char) : List Char := (urlMatch line).getD []

/-- Well-formed candidate line: contains the link marker and a ref
marker, the ref regex matches, and the extracted URL passes the filter. -/
def goodLine (line : List Char) : Bool :=
  containsSub line (cs "link") && containsSub line (cs "[ref=") &&
  (refMatch line).isSome && urlPass (lineUrl line)

/-- Oracle answering every command with an empty success. -/
def env0 : Env := fun _ => .ok []

/-- Oracle where only the second command (the network-idle wait) fails. -/
def envW : Env := fun k => if k = 1 then .error (cs "wait timeout") else .ok []

/-- A fixed session identifier for concrete runs. -/
def sid0 : List Char := cs "s1"

/-- A fixed query for concrete runs. -/
def q0 : List Char := cs "x"

/-- Initial execution state. -/
def st0 : ExecSt := ⟨0, []⟩

/-- Operation failing on its first two attempts and then succeeding. -/
def fnEx : Nat → Except (List Char) Nat :=
  fun i => if i < 2 then .error (cs "fail") else .ok 42


/-- A concrete snapshot of three distinct well-formed link lines. -/
def snapW : List Char :=
  cs "- link \"A\" [ref=e1] https://example.com/aa\n- link \"B\" [ref=e2] https://example.org/bb\n- link \"C\" [ref=e3] https://example.net/cc"

/-- A snapshot holding one excluded-domain link line and one admissible
link line. -/
def snapX : List Char :=
  cs "- link \"A\" [ref=e1] https://accounts.google.com/x\n- link \"B\" [ref=e2] https://example.org/bbb"

/-- An HTML fragment holding one excluded-domain href and one
admissible href. -/
def htmlX : List Char :=
  cs "<a href=\"https://accounts.google.com/z\">G</a><a href=\"https://example.com/x\">E</a>"

/-- The serialization invariant: starts happen in arrival order with the
pending queue exactly the enqueued-but-unstarted suffix, and every
started task except the one in the processing slot has finished, in
start order.  Together these say tasks run one at a time, to
completion, in strict FIFO order. -/
def qInv (s : QState) : Prop :=
  startIds s.log = finishIds s.log ++ s.processing.toList ∧
  enqIds s.log = startIds s.log ++ s.queue

/-- Number of session-close commands for `sid` in a trace. -/
def countClose (sid : List Char) (tr : List Cmd) : Nat :=
  (tr.filter (fun c => decide (c = closeArgs sid))).length

/-! # Theorems -/

/-! ## Shared helper lemmas -/

theorem foldl_if_count (p : α → Bool) (l : List α) (n : Nat) :
    l.foldl (fun m k => if p k then m + 1 else m) n = n + l.countP p := by
  induction l generalizing n with
  | nil => simp
  | cons a l ih =>
    simp only [List.foldl_cons, List.countP_cons, ih]
    split <;> omega

theorem Char_toNat_ofNat (m : Nat) (h : Nat.isValidChar m) :
    (Char.ofNat m).toNat = m := by
  simp only [Char.ofNat, Char.toNat]
  rw [dif_pos h]
  rfl

theorem isJsWs_asciiLower (c : Char) : isJsWs (asciiLower c) = isJsWs c := by
  unfold asciiLower
  split
  · rename_i h
    simp only [Bool.and_eq_true, decide_eq_true_eq] at h
    have key : (Char.ofNat (c.toNat + 32)).toNat = c.toNat + 32 :=
      Char_toNat_ofNat _ (Or.inl (by omega))
    have e1 : isJsWs c = false := by simp [isJsWs]; omega
    have e2 : isJsWs (Char.ofNat (c.toNat + 32)) = false := by
      simp [isJsWs, key]; omega
    rw [e1, e2]
  · rfl

theorem wsTokensGo_lowerStr (s cur : List Char) :
    wsTokensGo (lowerStr cur) (lowerStr s) = (wsTokensGo cur s).map lowerStr := by
  induction s generalizing cur with
  | nil =>
    cases cur with
    | nil => simp [lowerStr, wsTokensGo]
    | cons x xs => simp [lowerStr, wsTokensGo, List.map_reverse]
  | cons c rest ih =>
    show wsTokensGo (lowerStr cur) (asciiLower c :: lowerStr rest) = _
    simp only [wsTokensGo, isJsWs_asciiLower]
    by_cases hc : isJsWs c
    · by_cases he : cur.isEmpty
      · have he2 : (lowerStr cur).isEmpty = true := by
          simp only [lowerStr]
          simpa using he
        simpa [hc, he, he2] using ih []
      · have he2 : (lowerStr cur).isEmpty = false := by
          simp only [lowerStr]
          simp only [List.isEmpty_eq_false] at he ⊢
          simpa using he
        simp only [hc, if_true, he2, Bool.false_eq_true, if_false,
          he, List.map_cons]
        rw [show (lowerStr cur).reverse = lowerStr cur.reverse by
          simp [lowerStr, List.map_reverse]]
        simpa using ih []
    · simpa [hc] using ih (c :: cur)

theorem wsTokens_lowerStr (s : List Char) :
    wsTokens (lowerStr s) = (wsTokens s).map lowerStr := by
  simpa using wsTokensGo_lowerStr s []

/-! ## Claim C2: checkRelevance algorithm -/

/-- C2: checkRelevance lower-cases both strings, splits the query on
whitespace, discards tokens no longer than the configured minimum
keyword length, counts the remaining tokens occurring as substrings of
the lower-cased content, and accepts exactly when that count reaches
max 1 (ceil of half the token count); in particular one matching
keyword suffices for a two-keyword query. -/
theorem checkRelevance_spec :
    (∀ query content,
      checkRelevance query content = checkRelevanceClaim query content) ∧
    (∀ query content k1 k2, keywordsOf query = [k1, k2] →
      containsSub (lowerStr content) k1 = true →
      checkRelevance query content = true) := by
  constructor
  · intro q c
    simp only [checkRelevance, checkRelevanceClaim, keywordsOf,
      foldl_if_count, Nat.zero_add]
  · intro q c k1 k2 hk h1
    simp only [checkRelevance, hk, foldl_if_count, Nat.zero_add,
      List.countP_cons, List.countP_nil, h1, List.length_cons,
      List.length_nil, ceilHalf, decide_eq_true_eq, if_true]
    by_cases h2 : containsSub (lowerStr c) k2 = true <;> simp [h2]

/-- Witness for C2 at a concrete two-keyword query and content matching
only the first keyword. -/
theorem checkRelevance_spec_witness :
    checkRelevance (cs "openai gpt") (cs "all about OpenAI models") = true :=
  checkRelevance_spec.2 (cs "openai gpt") (cs "all about OpenAI models")
    (cs "openai") (cs "gpt") (by decide) (by decide)

/-! ## Claim C10: queries with only short tokens never match -/

/-- C10: when every whitespace-separated token of the query is no longer
than the configured minimum keyword length, checkRelevance is false for
every content: the keyword list is empty, the threshold clamps to one,
and the match count is zero. -/
theorem checkRelevance_allShortTokens_false :
    ∀ query content, (∀ t ∈ wsTokens query, t.length ≤ minKeywordLength) →
      checkRelevance query content = false := by
  intro q c h
  have hkw : keywordsOf q = [] := by
    unfold keywordsOf
    rw [wsTokens_lowerStr]
    rw [List.filter_map]
    apply List.eq_nil_of_length_eq_zero
    rw [List.length_map, List.length_eq_zero]
    rw [List.filter_eq_nil_iff]
    intro t ht
    have := h t ht
    simp only [Function.comp, lowerStr, List.length_map, decide_eq_true_eq]
    omega
  simp [checkRelevance, hkw, ceilHalf]

/-- Witness for C10 at a query of two two-letter tokens, against a
content that even contains both tokens. -/
theorem checkRelevance_allShortTokens_false_witness :
    checkRelevance (cs "ab cd") (cs "ab cd here") = false :=
  checkRelevance_allShortTokens_false (cs "ab cd") (cs "ab cd here")
    (by decide)

/-! ## Claim C1: parseSnapshotRefs on well-formed snapshots -/

theorem psrGo_good (mr : Nat) (lines : List (List Char)) :
    ∀ acc : List Link,
    (∀ l ∈ lines, goodLine l = true) →
    ((acc.map Link.url) ++ lines.map lineUrl).Nodup →
    acc.length < mr * 2 →
    psrGo mr lines acc = acc ++ (lines.map candOf).take (mr * 2 - acc.length) := by
  induction lines with
  | nil => intro acc _ _ _; simp [psrGo]
  | cons line rest ih =>
    intro acc hgood hnodup hlen
    have hg := hgood line (List.mem_cons_self _ _)
    simp only [goodLine, Bool.and_eq_true] at hg
    obtain ⟨⟨⟨hA, hB⟩, hC⟩, hD⟩ := hg
    obtain ⟨r, hr⟩ := Option.isSome_iff_exists.mp hC
    have hnotin : lineUrl line ∉ acc.map Link.url := by
      rw [List.map_cons] at hnodup
      have hd := (List.nodup_append.mp hnodup).2.2
      intro hmem
      exact hd hmem (List.mem_cons_self _ _)
    have hany : (acc.any fun l => decide (l.url = lineUrl line)) = false := by
      rw [List.any_eq_false]
      intro l hl
      simp only [decide_eq_true_eq]
      intro he
      exact hnotin (he ▸ List.mem_map_of_mem Link.url hl)
    simp only [psrGo, hA, hB, Bool.and_self, if_true, hr]
    rw [show ((urlMatch line).getD []) = lineUrl line from rfl]
    simp only [hD, hany, Bool.not_false, Bool.and_self, if_true]
    by_cases hstop : mr * 2 ≤ (acc ++ [(⟨r, (quoteMatch line).getD [],
        lineUrl line⟩ : Link)]).length
    · rw [if_pos hstop]
      have e1 : mr * 2 - acc.length = 1 := by
        simp only [List.length_append, List.length_cons, List.length_nil] at hstop
        omega
      rw [List.map_cons, e1, show (1 : Nat) = 0 + 1 from rfl,
        List.take_succ_cons, List.take_zero]
      have : (⟨r, (quoteMatch line).getD [], lineUrl line⟩ : Link) = candOf line := by
        unfold candOf lineUrl
        rw [hr]
        rfl
      rw [this]
    · rw [if_neg hstop]
      have hlen2 : (acc ++ [(⟨r, (quoteMatch line).getD [],
          lineUrl line⟩ : Link)]).length < mr * 2 := by
        simp only [List.length_append, List.length_cons, List.length_nil] at hstop ⊢
        omega
      have hnodup2 : (((acc ++ [(⟨r, (quoteMatch line).getD [],
          lineUrl line⟩ : Link)]).map Link.url) ++ rest.map lineUrl).Nodup := by
        rw [List.map_append, List.append_assoc]
        simpa using hnodup
      rw [ih _ (fun l hl => hgood l (List.mem_cons_of_mem _ hl)) hnodup2 hlen2]
      have : (⟨r, (quoteMatch line).getD [], lineUrl line⟩ : Link) = candOf line := by
        unfold candOf lineUrl
        rw [hr]
        rfl
      rw [this, List.map_cons]
      have e2 : mr * 2 - acc.length = (mr * 2 - (acc.length + 1)) + 1 := by omega
      rw [e2, List.take_succ_cons]
      simp

/-- C1 (amended to maxResults at least 1): on a snapshot whose lines are
all distinct well-formed link lines, parseSnapshotRefs returns exactly
the first min(N, 2 * maxResults) candidates, in line order, with
pairwise distinct URLs. -/
theorem parseSnapshotRefs_wellFormed (snapshot : List Char) (maxResults : Nat)
    (lines : List (List Char)) (hsplit : splitNl snapshot = lines)
    (hgood : ∀ l ∈ lines, goodLine l = true)
    (hnodup : (lines.map lineUrl).Nodup)
    (hmr : 1 ≤ maxResults) :
    parseSnapshotRefs snapshot maxResults =
      (lines.map candOf).take (maxResults * 2) ∧
    (parseSnapshotRefs snapshot maxResults).length =
      min lines.length (maxResults * 2) ∧
    ((parseSnapshotRefs snapshot maxResults).map Link.url).Nodup := by
  have h1 : parseSnapshotRefs snapshot maxResults =
      (lines.map candOf).take (maxResults * 2) := by
    unfold parseSnapshotRefs
    rw [hsplit]
    have := psrGo_good maxResults lines [] hgood (by simpa using hnodup)
      (by simp only [List.length_nil]; omega)
    simpa using this
  refine ⟨h1, ?_, ?_⟩
  · rw [h1, List.length_take, List.length_map, Nat.min_comm]
  · rw [h1]
    have hmap : (((lines.map candOf).take (maxResults * 2)).map Link.url) =
        ((lines.map lineUrl).take (maxResults * 2)) := by
      rw [List.map_take, List.map_map]
      rfl
    rw [hmap]
    exact List.Nodup.sublist (List.take_sublist _ _) hnodup

/-- Witness for C1 at the three-line snapshot and maxResults 1: exactly
two candidates come back, in order, with distinct URLs. -/
theorem parseSnapshotRefs_wellFormed_witness :
    parseSnapshotRefs snapW 1 = ((splitNl snapW).map candOf).take (1 * 2) ∧
    (parseSnapshotRefs snapW 1).length = min (splitNl snapW).length (1 * 2) ∧
    ((parseSnapshotRefs snapW 1).map Link.url).Nodup :=
  parseSnapshotRefs_wellFormed snapW 1 (splitNl snapW) rfl (by decide)
    (by decide) (by decide)

/-- C1 counterexample: for maxResults 0 the claimed count min(N, 0) = 0
is wrong; the loop pushes one candidate before checking the cap, so a
single-line well-formed snapshot yields one candidate, not zero. -/
theorem parseSnapshotRefs_cap_cex :
    ¬ ((parseSnapshotRefs (cs "- link \"A\" [ref=e1] https://example.com/aa") 0).length
        = min (splitNl (cs "- link \"A\" [ref=e1] https://example.com/aa")).length
            (0 * 2)) := by
  decide

/-! ## Claim C9: excluded domains never reach the output -/

theorem psrGo_pass (mr : Nat) (lines : List (List Char)) :
    ∀ acc, (∀ L ∈ acc, urlPass L.url = true) →
    ∀ L ∈ psrGo mr lines acc, urlPass L.url = true := by
  induction lines with
  | nil =>
    intro acc hacc L hL
    rw [psrGo] at hL
    exact hacc L hL
  | cons line rest ih =>
    intro acc hacc L hL
    rw [psrGo] at hL
    split at hL
    · split at hL
      · exact ih acc hacc L hL
      · rename_i ref _
        simp only [] at hL
        split at hL
        · rename_i hguard
          have hpass : urlPass ((urlMatch line).getD []) = true := by
            simp only [Bool.and_eq_true] at hguard
            exact hguard.1
          split at hL
          · rcases List.mem_append.mp hL with hin | hone
            · exact hacc L hin
            · rw [List.mem_singleton.mp hone]
              exact hpass
          · refine ih _ ?_ L hL
            intro M hM
            rcases List.mem_append.mp hM with hin | hone
            · exact hacc M hin
            · rw [List.mem_singleton.mp hone]
              exact hpass
        · exact ih acc hacc L hL
    · exact ih acc hacc L hL

theorem elfGo_pass (html : List Char) (mr : Nat)
    (ms : List (List Char × List Char)) :
    ∀ acc, (∀ L ∈ acc, htmlUrlPass L.url = true) →
    ∀ L ∈ elfGo html mr ms acc, htmlUrlPass L.url = true := by
  induction ms with
  | nil =>
    intro acc hacc L hL
    rw [elfGo] at hL
    exact hacc L hL
  | cons m rest ih =>
    intro acc hacc L hL
    rw [elfGo] at hL
    split at hL
    · rename_i hguard
      have hpass : htmlUrlPass m.2 = true := by
        simp only [Bool.and_eq_true] at hguard
        exact hguard.1
      simp only [] at hL
      split at hL
      · rcases List.mem_append.mp hL with hin | hone
        · exact hacc L hin
        · rw [List.mem_singleton.mp hone]
          exact hpass
      · refine ih _ ?_ L hL
        intro M hM
        rcases List.mem_append.mp hM with hin | hone
        · exact hacc M hin
        · rw [List.mem_singleton.mp hone]
          exact hpass
    · exact ih acc hacc L hL

/-- C9: every candidate either parser returns passes the full URL
filter of its extraction routine; in particular no output URL ever
contains the excluded accounts.google domain, however many excluded
URLs the input holds. -/
theorem parsers_never_emit_excluded :
    (∀ snapshot mr L, L ∈ parseSnapshotRefs snapshot mr →
      urlPass L.url = true) ∧
    (∀ snapshot mr L, L ∈ parseSnapshotRefs snapshot mr →
      containsSub L.url (cs "accounts.google") = false) ∧
    (∀ html mr L, L ∈ extractLinksFromHtml html mr →
      htmlUrlPass L.url = true) ∧
    (∀ html mr L, L ∈ extractLinksFromHtml html mr →
      containsSub L.url (cs "accounts.google") = false) := by
  have h1 : ∀ snapshot mr L, L ∈ parseSnapshotRefs snapshot mr →
      urlPass L.url = true := by
    intro snapshot mr L hL
    exact psrGo_pass mr (splitNl snapshot) [] (by simp) L hL
  have h3 : ∀ html mr L, L ∈ extractLinksFromHtml html mr →
      htmlUrlPass L.url = true := by
    intro html mr L hL
    exact elfGo_pass html mr (hrefScan html) [] (by simp) L hL
  refine ⟨h1, ?_, h3, ?_⟩
  · intro snapshot mr L hL
    have := h1 snapshot mr L hL
    simp only [urlPass, Bool.and_eq_true, Bool.not_eq_true'] at this
    exact this.1.1.1.1.1.1.2
  · intro html mr L hL
    have := h3 html mr L hL
    simp only [htmlUrlPass, Bool.and_eq_true, Bool.not_eq_true'] at this
    exact this.1.1.1.2

/-- Witness for C9: the admissible candidates of the concrete inputs are
in the outputs and satisfy the filters. -/
theorem parsers_never_emit_excluded_witness :
    urlPass (Link.mk (cs "e2") (cs "B") (cs "https://example.org/bbb")).url = true ∧
    containsSub (Link.mk (cs "e2") (cs "B") (cs "https://example.org/bbb")).url
      (cs "accounts.google") = false ∧
    htmlUrlPass (HtmlLink.mk (cs "https://example.com/x") (cs "E")).url = true ∧
    containsSub (HtmlLink.mk (cs "https://example.com/x") (cs "E")).url
      (cs "accounts.google") = false :=
  ⟨parsers_never_emit_excluded.1 snapX 5 _ (by decide),
   parsers_never_emit_excluded.2.1 snapX 5 _ (by decide),
   parsers_never_emit_excluded.2.2.1 htmlX 5 _ (by decide),
   parsers_never_emit_excluded.2.2.2 htmlX 5 _ (by decide)⟩

/-! ## Claim C5: withRetry semantics -/

theorem wrGo_spec (fn : Nat → Except ε α) (bd : Nat) :
    ∀ fuel i,
    i ≤ (wrGo fn bd fuel i).2.2 ∧
    (wrGo fn bd fuel i).2.2 ≤ i + fuel ∧
    (0 < fuel → i < (wrGo fn bd fuel i).2.2) ∧
    (wrGo fn bd fuel i).2.1 =
      (List.range' i ((wrGo fn bd fuel i).2.2 - 1 - i)).map
        (fun j => bd * 2 ^ j) ∧
    (∀ j, i ≤ j → j + 1 < (wrGo fn bd fuel i).2.2 → ∃ e, fn j = .error e) ∧
    (0 < fuel →
      (wrGo fn bd fuel i).1 = some (fn ((wrGo fn bd fuel i).2.2 - 1)) ∧
      ((∃ a, fn ((wrGo fn bd fuel i).2.2 - 1) = .ok a) ∨
        (wrGo fn bd fuel i).2.2 = i + fuel)) := by
  intro fuel
  induction fuel using Nat.strong_induction_on with
  | _ fuel ih =>
    intro i
    match fuel with
    | 0 =>
      refine ⟨Nat.le_refl _, by simp [wrGo], by simp, by simp [wrGo], ?_, by simp⟩
      intro j hij hlt
      simp only [wrGo] at hlt
      omega
    | 1 =>
      cases hfn : fn i with
      | ok a =>
        simp only [wrGo, hfn]
        refine ⟨by omega, by omega, fun _ => by omega, by simp, ?_,
          fun _ => ⟨?_, ?_⟩⟩
        · intro j hij hlt
          omega
        · simp [hfn]
        · exact Or.inl ⟨a, by simp [hfn]⟩
      | error e =>
        simp only [wrGo, hfn]
        refine ⟨by omega, by omega, fun _ => by omega, by simp, ?_,
          fun _ => ⟨?_, ?_⟩⟩
        · intro j hij hlt
          omega
        · simp [hfn]
        · exact Or.inr trivial
    | fuel + 2 =>
      cases hfn : fn i with
      | ok a =>
        simp only [wrGo, hfn]
        refine ⟨by omega, by omega, fun _ => by omega, by simp, ?_,
          fun _ => ⟨?_, ?_⟩⟩
        · intro j hij hlt
          omega
        · simp [hfn]
        · exact Or.inl ⟨a, by simp [hfn]⟩
      | error e =>
        have hrec := ih (fuel + 1) (by omega) (i + 1)
        obtain ⟨r1, r2, r3, r4, r5, r6⟩ := hrec
        have hcalls : i + 1 < (wrGo fn bd (fuel + 1) (i + 1)).2.2 :=
          r3 (by omega)
        simp only [wrGo, hfn]
        refine ⟨by omega, by omega, fun _ => by omega, ?_, ?_, fun _ => ⟨?_, ?_⟩⟩
        · rw [r4]
          have e1 : (wrGo fn bd (fuel + 1) (i + 1)).2.2 - 1 - i =
              ((wrGo fn bd (fuel + 1) (i + 1)).2.2 - 1 - (i + 1)) + 1 := by
            omega
          rw [e1, List.range'_succ, List.map_cons]
        · intro j hij hlt
          rcases Nat.eq_or_lt_of_le hij with heq | hlt2
          · exact ⟨e, heq ▸ hfn⟩
          · exact r5 j hlt2 hlt
        · exact (r6 (by omega)).1
        · rcases (r6 (by omega)).2 with hok | hend
          · exact Or.inl hok
          · exact Or.inr (by omega)

/-- C5: withRetry invokes the operation at most maxRetries times,
sleeps exactly baseDelay * 2 ^ j after the j-th failed non-final
attempt, returns the last attempt's outcome (so a final-attempt failure
propagates that error unchanged, and every earlier attempt failed);
on the concrete operation failing twice then succeeding, with three
attempts and base delay 1000, it resolves with the third attempt's
result after sleeps 1000 and 2000 and never makes a fourth call. -/
theorem withRetry_spec (fn : Nat → Except ε α) (mr bd : Nat) :
    (withRetry fn mr bd).2.2 ≤ mr ∧
    (withRetry fn mr bd).2.1 =
      (List.range ((withRetry fn mr bd).2.2 - 1)).map (fun j => bd * 2 ^ j) ∧
    (∀ j, j + 1 < (withRetry fn mr bd).2.2 → ∃ e, fn j = .error e) ∧
    (0 < mr →
      (withRetry fn mr bd).1 = some (fn ((withRetry fn mr bd).2.2 - 1)) ∧
      ((∃ a, fn ((withRetry fn mr bd).2.2 - 1) = .ok a) ∨
        (withRetry fn mr bd).2.2 = mr)) ∧
    withRetry fnEx retryMaxAttempts retryBaseDelay =
      (some (.ok 42), [1000, 2000], 3) := by
  obtain ⟨h1, h2, h3, h4, h5, h6⟩ := wrGo_spec fn bd mr 0
  refine ⟨by simpa using h2, ?_, ?_, ?_, by rfl⟩
  · rw [List.range_eq_range']
    simpa using h4
  · intro j hj
    exact h5 j (Nat.zero_le _) hj
  · intro hmr
    have := h6 hmr
    simpa using this

/-- Witness for C5: the concrete fail-fail-succeed scenario. -/
theorem withRetry_spec_witness :
    withRetry fnEx retryMaxAttempts retryBaseDelay =
      (some (.ok 42), [1000, 2000], 3) :=
  (withRetry_spec fnEx retryMaxAttempts retryBaseDelay).2.2.2.2

/-! ## Claim C8: request queue serialization -/

theorem qInv_processStep (s : QState) (h : qInv s) : qInv (processStep s) := by
  obtain ⟨h1, h2⟩ := h
  unfold processStep
  cases hp : s.processing with
  | some i => simpa [hp] using ⟨h1, h2⟩
  | none =>
    cases hq : s.queue with
    | nil => simpa [hp, hq] using ⟨h1, h2⟩
    | cons j rest =>
      rw [hp] at h1
      rw [hq] at h2
      constructor
      · simp only [startIds, finishIds, List.filterMap_append]
        simp only [startIds, finishIds] at h1
        simp [h1]
      · simp only [enqIds, startIds, List.filterMap_append]
        simp only [enqIds, startIds] at h2
        simp [h2]

theorem qInv_qStep (s : QState) (a : QAction) (h : qInv s) :
    qInv (qStep s a) := by
  obtain ⟨h1, h2⟩ := h
  cases a with
  | enq i =>
    apply qInv_processStep
    constructor
    · simp only [startIds, finishIds, List.filterMap_append]
      simp only [startIds, finishIds] at h1
      simp [h1]
    · simp only [enqIds, startIds, List.filterMap_append]
      simp only [enqIds, startIds] at h2
      simp [h2]
  | complete =>
    unfold qStep
    cases hp : s.processing with
    | none => exact ⟨by simpa [hp] using h1, h2⟩
    | some i =>
      apply qInv_processStep
      rw [hp] at h1
      constructor
      · simp only [startIds, finishIds, List.filterMap_append]
        simp only [startIds, finishIds] at h1
        simp [h1]
      · simp only [enqIds, startIds, List.filterMap_append]
        simp only [enqIds, startIds] at h2
        simp [h2]

/-- C8: after any stimulus sequence, the queue state satisfies the
serialization invariant: the start order equals the arrival order up to
the still-pending suffix, and every started task except the single one
in the processing slot has already finished, in start order.  Hence no
two tasks are ever in flight together, and a task enqueued later never
starts, or finishes, before an earlier one has finished. -/
theorem requestQueue_fifo_serial (acts : List QAction) : qInv (qRun acts) := by
  have H : ∀ s, qInv s → qInv (acts.foldl qStep s) := by
    induction acts with
    | nil => intro s h; exact h
    | cons a rest ih =>
      intro s h
      exact ih _ (qInv_qStep s a h)
  exact H qInit ⟨rfl, rfl⟩

/-! ## Claim C7: session close exactly once -/

theorem countClose_snoc (sid : List Char) (tr : List Cmd) (c : Cmd) :
    countClose sid (tr ++ [c]) =
      countClose sid tr + (if c = closeArgs sid then 1 else 0) := by
  unfold countClose
  rw [List.filter_append]
  split <;> rename_i h <;> simp [h]

theorem countClose_append (sid : List Char) (tr tr2 : List Cmd) :
    countClose sid (tr ++ tr2) = countClose sid tr + countClose sid tr2 := by
  unfold countClose
  rw [List.filter_append, List.length_append]

theorem countClose_cons (sid : List Char) (c : Cmd) (tr : List Cmd) :
    countClose sid (c :: tr) =
      (if c = closeArgs sid then 1 else 0) + countClose sid tr := by
  unfold countClose
  rw [List.filter_cons]
  by_cases h : c = closeArgs sid
  · simp [h, Nat.add_comm]
  · simp [h]

theorem countClose_nil (sid : List Char) : countClose sid [] = 0 := rfl

theorem openArgs_ne_close (sid url : List Char) :
    openArgs sid url ≠ closeArgs sid := by
  simp [openArgs, closeArgs]

theorem waitArgs_ne_close (sid : List Char) : waitArgs sid ≠ closeArgs sid := by
  simp [waitArgs, closeArgs]

theorem snapshotIArgs_ne_close (sid : List Char) :
    snapshotIArgs sid ≠ closeArgs sid := by
  simp [snapshotIArgs, closeArgs]

theorem snapshotCArgs_ne_close (sid : List Char) :
    snapshotCArgs sid ≠ closeArgs sid := by
  simp [snapshotCArgs, closeArgs]

theorem snapshotArgs_ne_close (sid : List Char) :
    snapshotArgs sid ≠ closeArgs sid := by
  intro h
  simp only [snapshotArgs, closeArgs, List.cons.injEq, and_true] at h
  have := h.2.2
  revert this
  decide

theorem clickArgs_ne_close (sid ref : List Char) :
    clickArgs sid ref ≠ closeArgs sid := by
  simp [clickArgs, closeArgs]

theorem getTitleArgs_ne_close (sid : List Char) :
    getTitleArgs sid ≠ closeArgs sid := by
  simp [getTitleArgs, closeArgs]

theorem getTextBodyArgs_ne_close (sid : List Char) :
    getTextBodyArgs sid ≠ closeArgs sid := by
  simp [getTextBodyArgs, closeArgs]

theorem getArgs_ne_close (sid kind selector : List Char) :
    getArgs sid kind selector ≠ closeArgs sid := by
  simp [getArgs, closeArgs]

theorem screenshotArgs_ne_close (sid tempFile : List Char) :
    screenshotArgs sid tempFile ≠ closeArgs sid := by
  simp [screenshotArgs, closeArgs]

theorem countClose_runCmd (sid : List Char) (env : Env) (args : Cmd)
    (s : ExecSt) (h : args ≠ closeArgs sid) :
    countClose sid ((runCmd env args s).2.trace) = countClose sid s.trace := by
  show countClose sid (s.trace ++ [args]) = countClose sid s.trace
  rw [countClose_snoc, if_neg h]
  omega

theorem countClose_withRetryM (sid : List Char)
    (fn : ExecSt → Except Err α × ExecSt)
    (hfn : ∀ s, countClose sid ((fn s).2.trace) = countClose sid s.trace) :
    ∀ n s, countClose sid ((withRetryM fn n s).2.trace) =
      countClose sid s.trace := by
  intro n
  induction n using Nat.strong_induction_on with
  | _ n ih =>
    intro s
    match n with
    | 0 => rfl
    | 1 => exact hfn s
    | m + 2 =>
      unfold withRetryM
      cases hf : fn s with
      | mk r s2 =>
        have h2 : countClose sid s2.trace = countClose sid s.trace := by
          have := hfn s
          rw [hf] at this
          exact this
        cases r with
        | ok a => simp only [hf, h2]
        | error e =>
          simp only [hf]
          rw [ih (m + 1) (by omega) s2, h2]

theorem countClose_navigateStep (env : Env) (sid : List Char) (link : Link)
    (s : ExecSt) :
    countClose sid ((navigateStep env sid link s).2.trace) =
      countClose sid s.trace := by
  unfold navigateStep
  simp only [runCmd]
  split
  · simp [countClose_append, countClose_cons, countClose_nil,
      openArgs_ne_close]
  · cases h0 : env s.k with
    | ok v =>
      simp [countClose_append, countClose_cons, countClose_nil,
        clickArgs_ne_close]
    | error e =>
      simp [countClose_append, countClose_cons, countClose_nil,
        clickArgs_ne_close, openArgs_ne_close]

theorem countClose_visitOne (env : Env) (sid query : List Char) (link : Link)
    (s : ExecSt) :
    countClose sid ((visitOne env sid query link s).2.trace) =
      countClose sid s.trace := by
  unfold visitOne
  cases hnav : navigateStep env sid link s with
  | mk r s1 =>
    have hs1 : countClose sid s1.trace = countClose sid s.trace := by
      have := countClose_navigateStep env sid link s
      rw [hnav] at this
      exact this
    cases r with
    | error e => simpa using hs1
    | ok v =>
      simp only [runCmd]
      cases h1 : env s1.k with
      | error e =>
        simp [countClose_append, countClose_cons, countClose_nil,
          waitArgs_ne_close, hs1]
      | ok w =>
        dsimp only
        cases h2 : env (s1.k + 1 + 1) with
        | error e =>
          simp [countClose_append, countClose_cons, countClose_nil,
            waitArgs_ne_close, getTitleArgs_ne_close,
            getTextBodyArgs_ne_close, hs1]
        | ok w2 =>
          dsimp only
          split <;>
            simp [countClose_append, countClose_cons, countClose_nil,
              waitArgs_ne_close, getTitleArgs_ne_close,
              getTextBodyArgs_ne_close, hs1]

theorem countClose_visitLoopGo (env : Env) (sid query : List Char)
    (mr : Nat) :
    ∀ (cands : List Link) (results : List SearchResult) (s : ExecSt)
      (vis : Nat),
    countClose sid ((visitLoopGo env sid query mr cands results s vis).2.1.trace) =
      countClose sid s.trace := by
  intro cands
  induction cands with
  | nil => intro results s vis; rfl
  | cons link rest ih =>
    intro results s vis
    unfold visitLoopGo
    cases hv : visitOne env sid query link s with
    | mk r s2 =>
      have h2 : countClose sid s2.trace = countClose sid s.trace := by
        have := countClose_visitOne env sid query link s
        rw [hv] at this
        exact this
      cases r with
      | errored =>
        simp only []
        rw [ih, h2]
      | notRel =>
        simp only []
        split
        · exact h2
        · rw [ih, h2]
      | rel res =>
        simp only []
        split
        · exact h2
        · rw [ih, h2]

theorem countClose_extractLinksPhase (env : Env) (sid : List Char) (mr : Nat)
    (s : ExecSt) :
    countClose sid ((extractLinksPhase env sid mr s).2.trace) =
      countClose sid s.trace := by
  unfold extractLinksPhase
  simp only [runCmd]
  cases h0 : env s.k with
  | error e =>
    simp [countClose_append, countClose_cons, countClose_nil,
      snapshotIArgs_ne_close]
  | ok snap =>
    dsimp only
    split
    · cases h1 : env (s.k + 1) with
      | error e =>
        simp [countClose_append, countClose_cons, countClose_nil,
          snapshotIArgs_ne_close, snapshotCArgs_ne_close]
      | ok snap2 =>
        dsimp only
        split
        · cases h2 : env (s.k + 1 + 1) with
          | error e =>
            simp [countClose_append, countClose_cons, countClose_nil,
              snapshotIArgs_ne_close, snapshotCArgs_ne_close,
              snapshotArgs_ne_close]
          | ok snap3 =>
            simp [countClose_append, countClose_cons, countClose_nil,
              snapshotIArgs_ne_close, snapshotCArgs_ne_close,
              snapshotArgs_ne_close]
        · simp [countClose_append, countClose_cons, countClose_nil,
            snapshotIArgs_ne_close, snapshotCArgs_ne_close]
    · simp [countClose_append, countClose_cons, countClose_nil,
        snapshotIArgs_ne_close]

theorem countClose_searchAfterLinks (env : Env) (sid query : List Char)
    (mr : Nat) (links : List Link) (s : ExecSt) :
    countClose sid ((searchAfterLinks env sid query mr links s).2.trace) =
      countClose sid s.trace := by
  unfold searchAfterLinks
  split
  · rfl
  · have := countClose_visitLoopGo env sid query mr (links.take (mr * 2)) [] s 0
    unfold visitLoop
    cases hv : visitLoopGo env sid query mr (links.take (mr * 2)) [] s 0 with
    | mk results rest =>
      rw [hv] at this
      exact this

theorem countClose_searchBody (env : Env) (sid query : List Char) (mr : Nat)
    (s0 : ExecSt) :
    countClose sid ((searchBody env sid query mr s0).2.trace) =
      countClose sid s0.trace := by
  unfold searchBody
  cases validateUrl (searchUrlOf query) with
  | error e => rfl
  | ok b =>
    have hr := countClose_withRetryM sid
      (fun s => runCmd env (openArgs sid (searchUrlOf query)) s)
      (fun s => countClose_runCmd sid env _ s (openArgs_ne_close sid _)) 2 s0
    cases hw : withRetryM
        (fun s => runCmd env (openArgs sid (searchUrlOf query)) s) 2 s0 with
    | mk r s1 =>
      rw [hw] at hr
      cases r with
      | error e => exact hr
      | ok v =>
        simp only [runCmd]
        cases h2 : env s1.k with
        | error e =>
          simp [countClose_append, countClose_cons, countClose_nil,
            waitArgs_ne_close, hr]
        | ok w =>
          dsimp only
          have hwait : countClose sid
              (s1.trace ++ [waitArgs sid]) = countClose sid s0.trace := by
            simp [countClose_append, countClose_cons, countClose_nil,
              waitArgs_ne_close, hr]
          cases hep : extractLinksPhase env sid mr
              ⟨s1.k + 1, s1.trace ++ [waitArgs sid]⟩ with
          | mk links s3 =>
            have h3 : countClose sid s3.trace = countClose sid s0.trace := by
              have := countClose_extractLinksPhase env sid mr
                ⟨s1.k + 1, s1.trace ++ [waitArgs sid]⟩
              rw [hep] at this
              simpa [hwait] using this
            rw [countClose_searchAfterLinks]
            exact h3

theorem countClose_browseInner (env : Env) (sid url selector kind : List Char)
    (s : ExecSt) :
    countClose sid (((
      match runCmd env (openArgs sid url) s with
      | (.error e, s1) => (.error e, s1)
      | (.ok _, s1) =>
        match runCmd env (waitArgs sid) s1 with
        | (.error e, s2) => (.error e, s2)
        | (.ok _, s2) =>
          runCmd env (getArgs sid kind selector) s2 :
        Except Err (List Char) × ExecSt)).2.trace) =
      countClose sid s.trace := by
  simp only [runCmd]
  cases h0 : env s.k with
  | error e =>
    simp [countClose_append, countClose_cons, countClose_nil,
      openArgs_ne_close]
  | ok v =>
    dsimp only
    cases h1 : env (s.k + 1) with
    | error e =>
      simp [countClose_append, countClose_cons, countClose_nil,
        openArgs_ne_close, waitArgs_ne_close]
    | ok w =>
      simp [countClose_append, countClose_cons, countClose_nil,
        openArgs_ne_close, waitArgs_ne_close, getArgs_ne_close]

theorem countClose_browseBody (env : Env) (sid url selector ek : List Char)
    (s0 : ExecSt) :
    countClose sid ((browseBody env sid url selector ek s0).2.trace) =
      countClose sid s0.trace := by
  unfold browseBody
  exact countClose_withRetryM sid _
    (fun s => countClose_browseInner env sid url selector _ s) 2 s0

theorem countClose_screenshotInner (env : Env) (sid url tempFile : List Char)
    (s : ExecSt) :
    countClose sid (((
      match runCmd env (openArgs sid url) s with
      | (.error e, sA) => (.error e, sA)
      | (.ok _, sA) =>
        match runCmd env (waitArgs sid) sA with
        | (.error e, sB) => (.error e, sB)
        | (.ok _, sB) =>
          runCmd env (screenshotArgs sid tempFile) sB :
        Except Err (List Char) × ExecSt)).2.trace) =
      countClose sid s.trace := by
  simp only [runCmd]
  cases h0 : env s.k with
  | error e =>
    simp [countClose_append, countClose_cons, countClose_nil,
      openArgs_ne_close]
  | ok v =>
    dsimp only
    cases h1 : env (s.k + 1) with
    | error e =>
      simp [countClose_append, countClose_cons, countClose_nil,
        openArgs_ne_close, waitArgs_ne_close]
    | ok w =>
      simp [countClose_append, countClose_cons, countClose_nil,
        openArgs_ne_close, waitArgs_ne_close, screenshotArgs_ne_close]

/-- C7: each service issues the session-close command exactly once per
operation, whether its body succeeded or failed, and the close outcome
never replaces the body's result or error: the returned value equals the
body's own result. -/
theorem sessionClose_exactlyOnce :
    (∀ env sid query mr s0,
      (search env sid query mr s0).1 = (searchBody env sid query mr s0).1 ∧
      countClose sid ((search env sid query mr s0).2.trace) =
        countClose sid s0.trace + 1) ∧
    (∀ env sid url selector ek s0,
      (browse env sid url selector ek s0).1 =
        (browseBody env sid url selector ek s0).1.map
          (fun content => BrowseOutcome.mk url ek (trimStr content)) ∧
      countClose sid ((browse env sid url selector ek s0).2.trace) =
        countClose sid s0.trace + 1) ∧
    (∀ env fsRead fsUnlink sid url s0,
      countClose sid
          ((takeScreenshot env fsRead fsUnlink sid url s0).2.trace) =
        countClose sid s0.trace + 1) := by
  refine ⟨?_, ?_, ?_⟩
  · intro env sid query mr s0
    unfold search
    cases hb : searchBody env sid query mr s0 with
    | mk r s1 =>
      have h1 : countClose sid s1.trace = countClose sid s0.trace := by
        have := countClose_searchBody env sid query mr s0
        rw [hb] at this
        exact this
      refine ⟨rfl, ?_⟩
      show countClose sid (s1.trace ++ [closeArgs sid]) = _
      simp [countClose_append, countClose_cons, countClose_nil, h1]
  · intro env sid url selector ek s0
    unfold browse
    cases hb : browseBody env sid url selector ek s0 with
    | mk r s1 =>
      have h1 : countClose sid s1.trace = countClose sid s0.trace := by
        have := countClose_browseBody env sid url selector ek s0
        rw [hb] at this
        exact this
      refine ⟨rfl, ?_⟩
      show countClose sid (s1.trace ++ [closeArgs sid]) = _
      simp [countClose_append, countClose_cons, countClose_nil, h1]
  · intro env fsRead fsUnlink sid url s0
    unfold takeScreenshot
    dsimp only
    cases hw : withRetryM (fun s =>
      match runCmd env (openArgs sid url) s with
      | (.error e, sA) => (.error e, sA)
      | (.ok _, sA) =>
        match runCmd env (waitArgs sid) sA with
        | (.error e, sB) => (.error e, sB)
        | (.ok _, sB) =>
          runCmd env (screenshotArgs sid
            (cs "/tmp/screenshot-" ++ sid ++ cs ".png")) sB) 2 s0 with
    | mk r s1 =>
      have h1 : countClose sid s1.trace = countClose sid s0.trace := by
        have := countClose_withRetryM sid _
          (fun s => countClose_screenshotInner env sid url
            (cs "/tmp/screenshot-" ++ sid ++ cs ".png") s) 2 s0
        rw [hw] at this
        exact this
      show countClose sid (s1.trace ++ [closeArgs sid]) = _
      simp [countClose_append, countClose_cons, countClose_nil, h1]

/-! ## Claim C6: visit loop bounds and outcome invariants -/

theorem visitLoopGo_spec (env : Env) (sid query : List Char) (mr : Nat) :
    ∀ (cands : List Link) (results : List SearchResult) (s : ExecSt)
      (vis : Nat), results.length < mr →
    (visitLoopGo env sid query mr cands results s vis).1.length ≤ mr ∧
    (visitLoopGo env sid query mr cands results s vis).2.2 ≤
      vis + cands.length ∧
    ((visitLoopGo env sid query mr cands results s vis).2.2 <
        vis + cands.length →
      (visitLoopGo env sid query mr cands results s vis).1.length = mr) := by
  intro cands
  induction cands with
  | nil =>
    intro results s vis hinv
    refine ⟨Nat.le_of_lt hinv, by simp [visitLoopGo], ?_⟩
    intro h
    simp only [visitLoopGo, List.length_nil, Nat.add_zero] at h
    omega
  | cons link rest ih =>
    intro results s vis hinv
    unfold visitLoopGo
    cases hv : visitOne env sid query link s with
    | mk r s2 =>
      cases r with
      | errored =>
        dsimp only
        obtain ⟨b1, b2, b3⟩ := ih results s2 (vis + 1) hinv
        refine ⟨b1, by simpa [Nat.add_comm, Nat.add_left_comm] using b2, ?_⟩
        intro h
        apply b3
        simp only [List.length_cons] at h
        omega
      | notRel =>
        dsimp only
        rw [if_neg (by omega)]
        obtain ⟨b1, b2, b3⟩ := ih results s2 (vis + 1) hinv
        refine ⟨b1, by simpa [Nat.add_comm, Nat.add_left_comm] using b2, ?_⟩
        intro h
        apply b3
        simp only [List.length_cons] at h
        omega
      | rel res =>
        dsimp only
        by_cases hstop : mr ≤ (results ++ [res]).length
        · rw [if_pos hstop]
          simp only [List.length_append, List.length_cons, List.length_nil]
          simp only [List.length_append, List.length_cons,
            List.length_nil] at hstop
          exact ⟨by omega, by omega, fun _ => by omega⟩
        · rw [if_neg hstop]
          simp only [List.length_append, List.length_cons,
            List.length_nil] at hstop
          obtain ⟨b1, b2, b3⟩ := ih (results ++ [res]) s2 (vis + 1)
            (by simp only [List.length_append, List.length_cons,
              List.length_nil]; omega)
          refine ⟨b1, by simpa [Nat.add_comm, Nat.add_left_comm] using b2, ?_⟩
          intro h
          apply b3
          simp only [List.length_cons] at h
          omega

theorem searchAfterLinks_spec (env : Env) (sid query : List Char) (mr : Nat)
    (links : List Link) (s : ExecSt) (o : SearchOutcome)
    (h : (searchAfterLinks env sid query mr links s).1 = .ok o) :
    o.totalFound = links.length ∧ o.relevantCount = o.results.length ∧
    o.results.length ≤ mr := by
  unfold searchAfterLinks at h
  split at h
  · rename_i hemp
    have ho : o = emptySearchOutcome query := by
      injection h with h2
      exact h2.symm
    rw [ho]
    refine ⟨?_, rfl, by simp [emptySearchOutcome]⟩
    simp only [emptySearchOutcome]
    rw [List.isEmpty_iff.mp hemp]
    rfl
  · rename_i hne
    cases hvl : visitLoop env sid query mr links s with
    | mk results rest =>
      rw [hvl] at h
      injection h with h2
      rw [← h2]
      refine ⟨rfl, rfl, ?_⟩
      by_cases hmr : mr = 0
      · subst hmr
        have : links.take (0 * 2) = [] := by simp
        unfold visitLoop at hvl
        rw [this] at hvl
        unfold visitLoopGo at hvl
        injection hvl with hres _
        simp [← hres]
      · have hspec := (visitLoopGo_spec env sid query mr
          (links.take (mr * 2)) [] s 0 (by simp; omega)).1
        unfold visitLoop at hvl
        rw [hvl] at hspec
        exact hspec

/-- C6: for every completed search, the outcome satisfies
totalFound = candidate count, relevantCount = results.length, and
results.length bounded by maxResults; the visit loop examines at most
min(candidateCount, 2 * maxResults) candidates and runs to that bound
unless it stopped because the accumulated results reached maxResults. -/
theorem search_outcome_invariants :
    (∀ env sid query mr links s o,
      (searchAfterLinks env sid query mr links s).1 = .ok o →
      o.totalFound = links.length ∧ o.relevantCount = o.results.length ∧
      o.results.length ≤ mr) ∧
    (∀ env sid query mr links s,
      (visitLoop env sid query mr links s).2.2 ≤
        min links.length (mr * 2) ∧
      ((visitLoop env sid query mr links s).2.2 <
          min links.length (mr * 2) →
        (visitLoop env sid query mr links s).1.length = mr)) ∧
    (∀ env sid query mr s0 o,
      (search env sid query mr s0).1 = .ok o →
      o.relevantCount = o.results.length ∧ o.results.length ≤ mr) := by
  refine ⟨fun env sid query mr links s o h =>
    searchAfterLinks_spec env sid query mr links s o h, ?_, ?_⟩
  · intro env sid query mr links s
    by_cases hmr : mr = 0
    · subst hmr
      unfold visitLoop
      simp [visitLoopGo]
    · have hspec := visitLoopGo_spec env sid query mr
        (links.take (mr * 2)) [] s 0 (by simp; omega)
      unfold visitLoop
      have hlen : (links.take (mr * 2)).length = min (mr * 2) links.length :=
        List.length_take _ _
      constructor
      · have := hspec.2.1
        rw [hlen] at this
        simpa [Nat.min_comm] using this
      · intro h
        apply hspec.2.2
        rw [hlen]
        simpa [Nat.min_comm] using h
  · intro env sid query mr s0 o h
    have hfst : (search env sid query mr s0).1 =
        (searchBody env sid query mr s0).1 :=
      (sessionClose_exactlyOnce.1 env sid query mr s0).1
    rw [hfst] at h
    unfold searchBody at h
    split at h
    · exact absurd h (by simp)
    · split at h
      · exact absurd h (by simp)
      · split at h
        · exact absurd h (by simp)
        · rename_i heq2
          cases hep : extractLinksPhase env sid mr _ with
          | mk links s3 =>
            rw [hep] at h
            have := searchAfterLinks_spec env sid query mr links s3 o h
            exact ⟨this.2.1, this.2.2⟩

/-- Witness for C6: a completed search against the all-empty oracle
returns the empty outcome, whose counts satisfy the invariants. -/
theorem search_outcome_invariants_witness :
    (emptySearchOutcome q0).relevantCount =
      (emptySearchOutcome q0).results.length ∧
    (emptySearchOutcome q0).results.length ≤ 5 :=
  search_outcome_invariants.2.2 env0 sid0 q0 5 st0 (emptySearchOutcome q0) rfl

/-! ## Claims C3 and C4: fallback chain and wait failure -/

theorem validate_searchUrl (query : List Char) :
    validateUrl (searchUrlOf query) = .ok true := rfl

/-- C4 (amended): when the network-idle wait command after opening the
search page fails, the failure is not retried by the outer retry policy
and the search aborts: the wait error propagates unchanged to the
caller, after the session-close command still runs; no extraction is
attempted. -/
theorem search_wait_failure_aborts (env : Env) (sid query : List Char)
    (mr : Nat) (o0 : List Char) (e : Err)
    (h0 : env 0 = .ok o0) (h1 : env 1 = .error e) :
    search env sid query mr ⟨0, []⟩ =
      (.error e,
       ⟨3, [openArgs sid (searchUrlOf query), waitArgs sid, closeArgs sid]⟩) := by
  simp only [search, searchBody, validate_searchUrl, withRetryM, runCmd, h0,
    h1, List.nil_append, List.singleton_append, List.cons_append]

/-- C4 counterexample: with the oracle whose second command (the wait)
fails, the search does not proceed to link extraction and does not
produce a normal outcome: it rejects with the wait error, and its trace
holds no snapshot command at all. -/
theorem search_wait_failure_cex :
    (search envW sid0 q0 5 st0).1 = .error (cs "wait timeout") ∧
    ((search envW sid0 q0 5 st0).2.trace.all
      (fun c => !(c.contains (cs "snapshot")))) = true := by
  constructor
  · rfl
  · rfl

/-- Witness for C4 at the concrete wait-failing oracle. -/
theorem search_wait_failure_aborts_witness :
    search envW sid0 q0 5 st0 =
      (.error (cs "wait timeout"),
       ⟨3, [openArgs sid0 (searchUrlOf q0), waitArgs sid0, closeArgs sid0]⟩) :=
  search_wait_failure_aborts envW sid0 q0 5 [] (cs "wait timeout") rfl rfl

/-- C3 (amended): when the interactive snapshot yields no candidates the
orchestrator retries with a compact snapshot and then a full snapshot,
and when every snapshot parse is empty it returns the empty outcome
(results empty, totalFound and relevantCount zero) without error; no
HTML-attribute extraction step exists in this path, as the exact trace
shows. -/
theorem search_snapshot_fallback_chain (env : Env) (sid query : List Char)
    (mr : Nat) (o0 o1 sn1 sn2 sn3 : List Char)
    (h0 : env 0 = .ok o0) (h1 : env 1 = .ok o1)
    (h2 : env 2 = .ok sn1) (h3 : env 3 = .ok sn2) (h4 : env 4 = .ok sn3)
    (hp2 : parseSnapshotRefs sn1 mr = []) (hp3 : parseSnapshotRefs sn2 mr = [])
    (hp4 : parseSnapshotRefs sn3 mr = []) :
    search env sid query mr ⟨0, []⟩ =
      (.ok (emptySearchOutcome query),
       ⟨6, [openArgs sid (searchUrlOf query), waitArgs sid, snapshotIArgs sid,
            snapshotCArgs sid, snapshotArgs sid, closeArgs sid]⟩) := by
  simp only [search, searchBody, validate_searchUrl, withRetryM, runCmd,
    extractLinksPhase, searchAfterLinks, h0, h1, h2, h3, h4, hp2, hp3, hp4,
    List.isEmpty_nil, if_true, List.nil_append, List.singleton_append,
    List.cons_append]

/-- C3 counterexample: against the all-empty oracle every snapshot
strategy yields nothing and the search returns the empty outcome, yet
no HTML-extraction command was ever issued — the trace holds no `html`
token — refuting the claimed HTML-attribute fallback step. -/
theorem search_no_html_fallback_cex :
    (search env0 sid0 q0 5 st0).1 = .ok (emptySearchOutcome q0) ∧
    ((search env0 sid0 q0 5 st0).2.trace.all
      (fun c => !(c.contains (cs "html")))) = true := by
  constructor
  · rfl
  · rfl

/-- Witness for C3 at the all-empty oracle. -/
theorem search_snapshot_fallback_chain_witness :
    search env0 sid0 q0 5 st0 =
      (.ok (emptySearchOutcome q0),
       ⟨6, [openArgs sid0 (searchUrlOf q0), waitArgs sid0, snapshotIArgs sid0,
            snapshotCArgs sid0, snapshotArgs sid0, closeArgs sid0]⟩) :=
  search_snapshot_fallback_chain env0 sid0 q0 5 [] [] [] [] [] rfl rfl rfl
    rfl rfl rfl rfl rfl
